import Mathlib

/-!
Shallow embedding of `matcher.py` (corpus_tools): a fuzzy matcher from a
list of novel titles to corpus metadata tables.

Python-level conventions used throughout:
* `str.split()`  → `pySplit` (split on whitespace, dropping empty pieces);
* `str.split('_')` → `pySplitOn` (keeps empty pieces, like Python);
* `str.strip(cs)` → `pyStrip` (removes leading/trailing chars from `cs`);
* `str(n)` for a natural number → `natToDec` (decimal rendering);
* Python dicts → association lists in insertion order;
* raising an exception → `Except.error`.
-/

namespace Matcher

/-- Helper for `pySplit`: walk the characters, accumulating the current
word (in reverse); whitespace ends a word, and empty pieces are dropped,
as Python `s.split()` does. -/
def pySplitAux : List Char → List Char → List String
  | [], acc => if acc.isEmpty then [] else [⟨acc.reverse⟩]
  | c :: cs, acc =>
    if c.isWhitespace then
      if acc.isEmpty then pySplitAux cs []
      else ⟨acc.reverse⟩ :: pySplitAux cs []
    else pySplitAux cs (c :: acc)

/-- Python `s.split()`: split on whitespace runs, dropping empty pieces. -/
def pySplit (s : String) : List String :=
  pySplitAux s.data []

/-- Helper for `pySplitOn`: split at every separator occurrence, keeping
empty pieces, as Python `s.split(sep)` does. -/
def pySplitOnAux (sep : Char) : List Char → List Char → List String
  | [], acc => [⟨acc.reverse⟩]
  | c :: cs, acc =>
    if c = sep then ⟨acc.reverse⟩ :: pySplitOnAux sep cs []
    else pySplitOnAux sep cs (c :: acc)

/-- Python `s.split(c)` for a single-char separator: keeps empty pieces
(`"_0".split('_') = ["", "0"]`). -/
def pySplitOn (s : String) (c : Char) : List String :=
  pySplitOnAux c s.data []

/-- Python `s.lower()`, character by character (ASCII, as in the data). -/
def pyLower (s : String) : String :=
  ⟨s.data.map Char.toLower⟩

/-- Python `s.strip(chars)`: remove leading and trailing characters that
belong to `chars`. -/
def pyStrip (chars : List Char) (s : String) : String :=
  ⟨((s.data.dropWhile (fun c => chars.contains c)).reverse.dropWhile
      (fun c => chars.contains c)).reverse⟩

/-- The decimal digit characters, as Python `str(int)` produces them. -/
def digitChar (d : Nat) : Char :=
  match d with
  | 0 => '0' | 1 => '1' | 2 => '2' | 3 => '3' | 4 => '4'
  | 5 => '5' | 6 => '6' | 7 => '7' | 8 => '8' | 9 => '9'
  | _ => '*'

/-- Decimal digits of `n`, least-significant first (`0` renders as `[0]`,
matching Python `str(0) = "0"`). -/
def decNats (n : Nat) : List Nat :=
  if n < 10 then [n]
  else n % 10 :: decNats (n / 10)
decreasing_by omega

/-- Python `str(n)` for a natural number: standard decimal rendering. -/
def natToDec (n : Nat) : String :=
  ⟨((decNats n).map digitChar).reverse⟩

/-- `kTitleFields` from `matcher.py` (Chicago, Chadwyck, Gale aliases). -/
def kTitleFields : List String := ["TITLE", "title", "display_title"]

/-- `Corpus.kStopWords` from `matcher.py`. -/
def kStopWords : List String := ["the", "of", "a", "an", "in", "on", "and"]

/-- The punctuation set stripped by `Corpus.get_title`. -/
def titleStripChars : List Char := [',', '.', ':', ';', '\'', '\"']

/-- One word of a raw title as processed by `Corpus.get_title`:
`word.lower().strip(',.:;\'\"')`. -/
def normWord (w : String) : String :=
  pyStrip titleStripChars (pyLower w)

/-- A metadata record (`Record` in `matcher.py`): its normalized key (`id`),
the verbatim title from the detected title field, and the full row. -/
structure Record where
  id : String
  title : String
  metadata : List (String × String)
deriving DecidableEq

/-- A corpus (`Corpus` in `matcher.py`) after `read_metatable`: records as an
insertion-ordered association list from normalized key to record, the row
count, the header column names, and the disambiguation counter. -/
structure Corpus where
  records : List (String × Record)
  len : Nat
  field_names : List String
  id_count : Nat
deriving DecidableEq

/-- `Corpus.get_title`: lowercases and punctuation-strips each word of the
title, drops stop-words, joins with underscores and appends the current
`id_count`, incrementing it.  Returns the key and the new counter. -/
def get_title (id_count : Nat) (title : String) : String × Nat :=
  let t_words := ((pySplit title).map normWord).filter
    (fun w => !(kStopWords.contains w))
  (String.intercalate "_" t_words ++ "_" ++ natToDec id_count, id_count + 1)

/-- `Corpus.get_title_field`: first header column that is a known title
alias, if any. -/
def get_title_field (row : List String) : Option String :=
  row.find? (fun field => kTitleFields.contains field)

/-- One parsed data row, as `csv.DictReader` yields it: column name to cell
value, in column order.  (`DictReader` guarantees every fieldname is
present as a key.) -/
abbrev Row := List (String × String)

/-- A parsed metadata table: header plus data rows. -/
structure Table where
  header : List String
  rows : List Row

/-- The body of the row loop of `Corpus.read_metatable`: normalize the raw
title into a key; if the key is already present, skip the row (collision);
otherwise store `Record(title, row, title_field)`.  The state is the records
list paired with `id_count`.  Note the counter is incremented by `get_title`
even on the collision branch, as in the source. -/
def insertRow (title_field : String) (st : List (String × Record) × Nat)
    (row : Row) : List (String × Record) × Nat :=
  let raw_title := (row.lookup title_field).getD ""
  let title := (get_title st.2 raw_title).1
  let idc := (get_title st.2 raw_title).2
  if (st.1.lookup title).isSome then (st.1, idc)
  else (st.1 ++ [(title, ⟨title, raw_title, row⟩)], idc)

/-- `Corpus.read_metatable` on a parsed table: find the title field (raising
`KeyError` if none), then fold the rows into the records map. -/
def read_metatable (t : Table) : Except String Corpus :=
  match get_title_field t.header with
  | none => .error "Could not find valid title field"
  | some title_field =>
    let st := t.rows.foldl (insertRow title_field) ([], 0)
    .ok { records := st.1, len := st.1.length, field_names := t.header,
          id_count := st.2 }

/-- Python `max(x :: xs, key=len)` on strings: scans left to right and
replaces the current best only on a strictly greater length, so ties keep
the earlier element. -/
def pyMax1 (x : String) (xs : List String) : String :=
  xs.foldl (fun best w => if w.length > best.length then w else best) x

/-- Python `max(l, key=len)`: `none` models the `ValueError` raised on an
empty sequence. -/
def pyMax (l : List String) : Option String :=
  match l with
  | [] => none
  | x :: xs => some (pyMax1 x xs)

/-- The candidate filter used by both `match_titles` (line 142) and
`get_match` (line 171): keep the keys one of whose underscore-separated
segments equals `cur_word`. -/
def candidatesFor (cur_word : String) (keys : List String) : List String :=
  keys.filter (fun r => (pySplitOn r '_').contains cur_word)

/-- Python `title.remove(cur_word)` then recursion: `get_match` pares down
the candidate list by the longest remaining word until one candidate is
left (`some`) or the word list is exhausted (`none`). -/
def get_match (title : List String) (candidates : List String) :
    Option String :=
  match title with
  | [] => none
  | t :: ts =>
    let cur_word := pyMax1 t ts
    let new_candidates := candidatesFor cur_word candidates
    match new_candidates with
    | [c] => some c
    | ncs => get_match ((t :: ts).erase cur_word) ncs
termination_by title.length
decreasing_by
  have key : ∀ (ys : List String) (x : String), pyMax1 x ys ∈ x :: ys := by
    intro ys
    induction ys with
    | nil => intro x; simp [pyMax1]
    | cons y ys ih =>
      intro x
      have step : pyMax1 x (y :: ys) =
          pyMax1 (if y.length > x.length then y else x) ys := rfl

      rw [step]
      have h := ih (if y.length > x.length then y else x)
      rw [List.mem_cons] at h
      rcases h with h | h
      · rw [h]
        by_cases hxy : y.length > x.length <;> simp [hxy]
      · simp only [List.mem_cons]
        right; right; exact h
  have main : ∀ (x : String) (xs : List String),
      ((x :: xs).erase (pyMax1 x xs)).length < (x :: xs).length := by
    intro x xs
    have hlen := List.length_erase_of_mem (key xs x)
    rw [hlen]
    simp
  exact main _ _

/-- Python dict assignment `d[k] = v`: overwrite in place if the key is
present, otherwise append. -/
def dictSet (d : List (String × Record)) (k : String) (v : Record) :
    List (String × Record) :=
  if (d.lookup k).isSome then
    d.map (fun p => if p.1 = k then (k, v) else p)
  else d ++ [(k, v)]

/-- `kMatchThreshold = 0.5` from `matcher.py` (modelled as the exact
rational). -/
def kMatchThreshold : Rat := 1 / 2

/-- The punctuation set stripped by `filter_matches` (`,.:;?`). -/
def filterStripChars : List Char := [',', '.', ':', ';', '?']

/-- `word.strip(',.:;?').lower()` as applied by `filter_matches`. -/
def filterWordNorm (w : String) : String :=
  pyLower (pyStrip filterStripChars w)

/-- Python `needle in hay` on strings: substring containment. -/
def isSubstr (needle hay : String) : Bool :=
  decide (needle.data <:+: hay.data)

/-- A row of the `bad_matches.csv` audit log:
`[match, metadata_title, match_percent]`. -/
structure LogRow where
  query : String
  matched : String
  percent : Rat
deriving DecidableEq

/-- The inner word loop of `filter_matches` (lines 117-121): for each word
of the matched record's title, assign `metadata_title`, normalize the word,
and count it if it is a substring of the query title.  The state is
`(num_terms_matched, metadata_title)`; `metadata_title` is `none` while the
Python local is still unassigned. -/
def innerStep (recTitle matchKey : String) (st : Nat × Option String)
    (word : String) : Nat × Option String :=
  let metadata_title := some recTitle
  let w := filterWordNorm word
  if isSubstr w matchKey then (st.1 + 1, metadata_title)
  else (st.1, metadata_title)

/-- The body of the outer loop of `filter_matches` for one accepted match:
compute the overlap count over the record title's words, then either reject
(log and drop the entry) when `match_percent <= kMatchThreshold` or keep the
entry.  A query title with no words raises `ZeroDivisionError`; using
`metadata_title` while unassigned raises Python's unbound-local error.  The
state is `(kept entries, log rows, metadata_title)`. -/
def filterEntry (st : List (String × Record) × List LogRow × Option String)
    (entry : String × Record) :
    Except String (List (String × Record) × List LogRow × Option String) :=
  let (kept, log, mt0) := st
  let title_len := (pySplit entry.1).length
  let inner := (pySplit entry.2.title).foldl
    (innerStep entry.2.title entry.1) (0, mt0)
  if title_len = 0 then .error "ZeroDivisionError: division by zero"
  else
    let match_percent : Rat := (inner.1 : Rat) / (title_len : Rat)
    if match_percent ≤ kMatchThreshold then
      match inner.2 with
      | none => .error "UnboundLocalError: metadata_title"
      | some metadata_title =>
        .ok (kept, log ++ [⟨entry.1, metadata_title, match_percent⟩], inner.2)
    else .ok (kept ++ [entry], log, inner.2)

/-- `filter_matches`: fold `filterEntry` over a snapshot of the accepted
matches, returning the surviving entries and the audit-log rows appended. -/
def filter_matches (ms : List (String × Record)) :
    Except String (List (String × Record) × List LogRow) := do
  let st ← ms.foldlM filterEntry ([], [], none)
  pure (st.1, st.2.1)

/-- The body of the title loop of `match_titles` (lines 135-158): drop
stop-words (case-sensitively, with no lowercasing), pick the longest word
(`max` raises `ValueError` on an empty list), then narrow candidates. -/
def matchStep (corpus : Corpus) (ms : List (String × Record))
    (title : String) : Except String (List (String × Record)) :=
  let search_title := (pySplit title).filter
    (fun word => !(kStopWords.contains word))
  match pyMax search_title with
  | none => .error "ValueError: max() arg is an empty sequence"
  | some cur_word =>
    let candidates := candidatesFor cur_word (corpus.records.map Prod.fst)
    match candidates with
    | [] => .ok ms
    | [c] =>
      match corpus.records.lookup c with
      | some r => .ok (dictSet ms title r)
      | none => .error "KeyError"
    | ncs =>
      match get_match (search_title.erase cur_word) ncs with
      | some m =>
        match corpus.records.lookup m with
        | some r => .ok (dictSet ms title r)
        | none => .error "KeyError"
      | none => .ok ms

/-- `match_titles`: build the matches dict over all titles, then run
`filter_matches` over it; returns the filtered matches plus the audit-log
rows written. -/
def match_titles (titles : List String) (corpus : Corpus) :
    Except String (List (String × Record) × List LogRow) := do
  let ms ← titles.foldlM (matchStep corpus) []
  filter_matches ms

/-- The per-table body of `main`'s corpus loop (lines 232-242): read the
metadata table, match the titles against it, and produce the output rows
(header `match_title :: field_names`, then one row per surviving match). -/
def process_table (titles : List String) (t : Table) :
    Except String (List (List String)) := do
  let corpus ← read_metatable t
  let (ms, _log) ← match_titles titles corpus
  pure ((["match_title"] ++ corpus.field_names) ::
    ms.map (fun p => p.1 :: p.2.metadata.map Prod.snd))

/-- `main`'s loop over the corpus directory: process each table in turn.
There is no exception handler in `main`, so any error raised for one table
propagates and aborts the whole run. -/
def mainLoop (titles : List String) (tables : List Table) :
    Except String (List (List (List String))) :=
  tables.foldlM (fun acc t =>
    (process_table titles t).map (fun out => acc ++ [out])) []

/-- The maximum word length of a list of strings. -/
def maxLen (l : List String) : Nat := l.foldr (fun w m => max w.length m) 0

/-- Modelled from the spec's words for the tie-break comparison: the
leftmost word of maximal length (the first scanned element achieving
`maxLen`). -/
def leftmostLongestSpec (l : List String) : Option String :=
  l.find? (fun w => w.length == maxLen l)

/-- The record built for the single row of `mobyTable`. -/
def mobyRecord : Record := ⟨"moby_dick_0", "Moby Dick", [("TITLE", "Moby Dick")]⟩

/-- A one-row metadata table whose only record normalizes to
`moby_dick_0`. -/
def mobyTable : Table := ⟨["TITLE"], [[("TITLE", "Moby Dick")]]⟩

/-- The corpus index produced by `read_metatable mobyTable`. -/
def mobyCorpus : Corpus := ⟨[("moby_dick_0", mobyRecord)], 1, ["TITLE"], 1⟩

/-- A metadata table whose header contains no recognized title column. -/
def badTable : Table := ⟨["author"], [[("author", "Melville")]]⟩

/-- Rows used to exercise `read_metatable` on two identical raw titles. -/
def twinRows : List Row := [[("TITLE", "Moby Dick")], [("TITLE", "Moby Dick")]]

/-- A one-entry matches map whose overlap ratio is above the threshold. -/
def gatsbyMatches : List (String × Record) :=
  [("gatsby", ⟨"great_gatsby_0", "The Great Gatsby", [("TITLE", "The Great Gatsby")]⟩)]

/-- The overlap ratio `filter_matches` computes for one accepted match:
the number of (normalized) record-title words that are substrings of the
query title, divided by the query title's word count. -/
def overlap (p : String × Record) : Rat :=
  (((pySplit p.2.title).countP
      (fun w => isSubstr (filterWordNorm w) p.1) : Rat)) /
    ((pySplit p.1).length : Rat)

/-- Invariant of `read_metatable`'s fold state: the stored keys are
pairwise distinct, and every stored key carries a disambiguator suffix
strictly below the current counter. -/
def goodState (st : List (String × Record) × Nat) : Prop :=
  (st.1.map Prod.fst).Nodup ∧
  ∀ k ∈ st.1.map Prod.fst, ∃ b m, k = b ++ "_" ++ natToDec m ∧ m < st.2

/-! ## Helper lemmas -/

theorem str_data_inj {s t : String} (h : s.data = t.data) : s = t := by
  cases s
  cases t
  exact congrArg String.mk h

theorem takeWhile_all_append (p : Char → Bool) (l1 l2 : List Char) (c : Char)
    (h1 : ∀ x ∈ l1, p x = true) (h2 : p c = false) :
    (l1 ++ c :: l2).takeWhile p = l1 := by
  induction l1 with
  | nil => simp [List.takeWhile_cons, h2]
  | cons a l ih =>
    have ha : p a = true := h1 a (by simp)
    simp only [List.cons_append, List.takeWhile_cons, ha, if_true]
    rw [ih (fun x hx => h1 x (by simp [hx]))]

theorem digitChar_inj : ∀ d1, d1 < 10 → ∀ d2, d2 < 10 →
    digitChar d1 = digitChar d2 → d1 = d2 := by decide

theorem digitChar_ne_underscore : ∀ d, d < 10 → digitChar d ≠ '_' := by decide

theorem decNats_lt10 {n : Nat} (h : n < 10) : decNats n = [n] := by
  rw [decNats]
  exact if_pos h

theorem decNats_ge10 {n : Nat} (h : ¬ n < 10) :
    decNats n = n % 10 :: decNats (n / 10) := by
  rw [decNats]
  exact if_neg h

theorem decNats_ne_nil (n : Nat) : decNats n ≠ [] := by
  by_cases h : n < 10
  · rw [decNats_lt10 h]
    simp
  · rw [decNats_ge10 h]
    simp

theorem decNats_all_lt (n : Nat) : ∀ x ∈ decNats n, x < 10 := by
  induction n using Nat.strong_induction_on with
  | _ n ih =>
    by_cases h : n < 10
    · rw [decNats_lt10 h]
      intro x hx
      rw [List.mem_singleton] at hx
      omega
    · rw [decNats_ge10 h]
      intro x hx
      rw [List.mem_cons] at hx
      rcases hx with hx | hx
      · have : n % 10 < 10 := Nat.mod_lt _ (by omega)
        omega
      · exact ih (n / 10) (by omega) x hx

theorem decNats_inj : ∀ n m : Nat, decNats n = decNats m → n = m := by
  intro n
  induction n using Nat.strong_induction_on with
  | _ n ih =>
    intro m h
    by_cases hn : n < 10 <;> by_cases hm : m < 10
    · rw [decNats_lt10 hn, decNats_lt10 hm] at h
      simpa using h
    · rw [decNats_lt10 hn, decNats_ge10 hm] at h
      have ht := congrArg List.tail h
      simp only [List.tail_cons] at ht
      exact absurd ht.symm (decNats_ne_nil (m / 10))
    · rw [decNats_ge10 hn, decNats_lt10 hm] at h
      have ht := congrArg List.tail h
      simp only [List.tail_cons] at ht
      exact absurd ht (decNats_ne_nil (n / 10))
    · rw [decNats_ge10 hn, decNats_ge10 hm] at h
      rw [List.cons.injEq] at h
      have h2 := ih (n / 10) (by omega) (m / 10) h.2
      have h1 := h.1
      omega

theorem map_digitChar_inj : ∀ (l1 l2 : List Nat), (∀ x ∈ l1, x < 10) →
    (∀ x ∈ l2, x < 10) → l1.map digitChar = l2.map digitChar → l1 = l2 := by
  intro l1
  induction l1 with
  | nil =>
    intro l2 _ _ h
    cases l2 <;> simp_all
  | cons a l ih =>
    intro l2 h1 h2 h
    cases l2 with
    | nil => simp at h
    | cons b l2' =>
      rw [List.map_cons, List.map_cons, List.cons.injEq] at h
      have ha : a = b :=
        digitChar_inj a (h1 a (by simp)) b (h2 b (by simp)) h.1
      have hl : l = l2' :=
        ih l2' (fun x hx => h1 x (by simp [hx]))
          (fun x hx => h2 x (by simp [hx])) h.2
      rw [ha, hl]

theorem natToDec_data (n : Nat) :
    (natToDec n).data = ((decNats n).map digitChar).reverse := rfl

theorem natToDec_inj {n m : Nat} (h : natToDec n = natToDec m) : n = m := by
  have hd := congrArg String.data h
  rw [natToDec_data, natToDec_data, List.reverse_inj] at hd
  exact decNats_inj n m
    (map_digitChar_inj _ _ (decNats_all_lt n) (decNats_all_lt m) hd)

theorem natToDec_no_underscore (n : Nat) :
    ∀ c ∈ (natToDec n).data, c ≠ '_' := by
  intro c hc
  rw [natToDec_data, List.mem_reverse, List.mem_map] at hc
  rcases hc with ⟨d, hd, hdc⟩
  rw [← hdc]
  exact digitChar_ne_underscore d (decNats_all_lt n d hd)

theorem key_suffix_inj {b1 b2 : String} {n m : Nat}
    (h : b1 ++ "_" ++ natToDec n = b2 ++ "_" ++ natToDec m) : n = m := by
  have hd := congrArg String.data h
  simp only [String.data_append] at hd
  have hrev := congrArg List.reverse hd
  simp only [List.reverse_append, List.reverse_cons, List.reverse_nil,
    List.nil_append, List.append_assoc, List.singleton_append] at hrev
  have ht := congrArg (List.takeWhile (fun c => c != '_')) hrev
  rw [takeWhile_all_append _ _ _ _
        (fun x hx => by
          rw [List.mem_reverse] at hx
          simpa using natToDec_no_underscore n x hx)
        (by simp),
      takeWhile_all_append _ _ _ _
        (fun x hx => by
          rw [List.mem_reverse] at hx
          simpa using natToDec_no_underscore m x hx)
        (by simp)] at ht
  rw [List.reverse_inj] at ht
  exact natToDec_inj (str_data_inj ht)

theorem get_title_fst (n : Nat) (t : String) : (get_title n t).1 =
    String.intercalate "_" (((pySplit t).map normWord).filter
      (fun w => !(kStopWords.contains w))) ++ "_" ++ natToDec n := rfl

theorem get_title_snd (n : Nat) (t : String) : (get_title n t).2 = n + 1 :=
  rfl

/-! ## Claim theorems -/

/-- C4: two calls to the normalizer `get_title` that share the same
monotonically increasing disambiguator counter (the second call uses the
counter returned by the first) produce distinct keys, for ANY two input
titles — including identical ones or titles with the same significant
words. -/
theorem c4_normalize_keys_distinct (n : Nat) (t1 t2 : String) :
    (get_title n t1).1 ≠ (get_title (get_title n t1).2 t2).1 := by
  intro h
  rw [get_title_snd, get_title_fst, get_title_fst] at h
  have := key_suffix_inj h
  omega

/-- C9: `get_title` applied to "The Great Gatsby" and to "Great Gatsby"
with the same counter value produces keys differing only in the
disambiguator suffix: both are `great_gatsby_<n>`. -/
theorem c9_stop_word_invariance (n : Nat) :
    (get_title n "The Great Gatsby").1 = "great_gatsby" ++ "_" ++ natToDec n ∧
    (get_title n "Great Gatsby").1 = "great_gatsby" ++ "_" ++ natToDec n :=
  ⟨rfl, rfl⟩

/-- C2 (code bug): a query title consisting only of stop-words (here
`"the"`) produces an empty significant-word list, and `match_titles` then
calls `max` on an empty sequence, raising `ValueError` and aborting — it
does not skip the title and complete normally. -/
theorem c2_empty_significant_words_raises :
    match_titles ["the"] mobyCorpus =
      .error "ValueError: max() arg is an empty sequence" := rfl

/-- C3 counterexample: with an index containing only `moby_dick_0`, the
query title `"Moby Dick"` yields NO match (the query words are never
lowercased, so `"Moby"` fails to equal the lowercased key segment
`"moby"`); the result is an empty matches map, not the record. -/
theorem c3_capitalized_query_no_match :
    match_titles ["Moby Dick"] mobyCorpus = .ok ([], []) := by
  with_unfolding_all rfl

/-- C3 amended: the single-candidate match works for the all-lowercase
query `"moby dick"`: `read_metatable` on the one-row table produces the
index with only `moby_dick_0`, and `match_titles` returns that record
(surviving the confidence filter). -/
theorem c3_lowercase_query_matches :
    read_metatable mobyTable = .ok mobyCorpus ∧
    match_titles ["moby dick"] mobyCorpus =
      .ok ([("moby dick", mobyRecord)], []) := by
  constructor
  · with_unfolding_all rfl
  · with_unfolding_all rfl

/-- C7 counterexample: the key `moby_dick_0` (produced by `get_title` with
disambiguator 0) is retained as a candidate for the query word `"0"`
solely because that word equals its disambiguator suffix — `"0"` is not
among the key's real word segments `moby`, `dick`. -/
theorem c7_suffix_matches_query_word :
    (get_title 0 "Moby Dick").1 = "moby_dick_0" ∧
    candidatesFor "0" ["moby_dick_0"] = ["moby_dick_0"] ∧
    ¬ "0" ∈ ["moby", "dick"] := by
  refine ⟨by with_unfolding_all rfl, rfl, by simp⟩

/-- C7 amended: a key is kept by the candidate filter exactly when one of
its underscore-separated segments — the disambiguator suffix included —
equals the selected query word.  (The suffix is an ordinary segment and
CAN match a query word, as the counterexample shows.) -/
theorem c7_candidate_kept_iff_segment_eq (w : String) (keys : List String)
    (k : String) :
    k ∈ candidatesFor w keys ↔ k ∈ keys ∧ w ∈ pySplitOn k '_' := by
  rw [candidatesFor, List.mem_filter]
  simp

/-- C1 counterexample: a table whose header has no recognized title column
makes the whole run abort — `mainLoop` returns the `KeyError` and the
following well-formed table is never processed (alone, it would produce
its match output). -/
theorem c1_bad_table_aborts_run :
    mainLoop ["moby dick"] [badTable, mobyTable] =
      .error "Could not find valid title field" ∧
    mainLoop ["moby dick"] [mobyTable] =
      .ok [[["match_title", "TITLE"], ["moby dick", "Moby Dick"]]] := by
  constructor
  · rfl
  · with_unfolding_all rfl

/-- C1 amended: when a corpus table's header contains none of the
recognized title-column names, `read_metatable` raises a `KeyError`;
`main` has no handler, so the error propagates and aborts the entire run —
no subsequent corpus is processed. -/
theorem c1_missing_title_field_aborts (titles : List String) (bad : Table)
    (rest : List Table) (h : get_title_field bad.header = none) :
    mainLoop titles (bad :: rest) =
      .error "Could not find valid title field" := by
  simp only [mainLoop, List.foldlM_cons, process_table, read_metatable, h]
  rfl

theorem lookup_eq_none_of_ne {l : List (String × Record)} {k : String}
    (h : ∀ p ∈ l, p.1 ≠ k) : l.lookup k = none := by
  rw [List.lookup_eq_none_iff]
  intro p hp
  simpa [bne_iff_ne] using Ne.symm (h p hp)

theorem insertRow_no_collision {st : List (String × Record) × Nat}
    (hst : goodState st) (tf : String) (row : Row) :
    st.1.lookup (get_title st.2 ((row.lookup tf).getD "")).1 = none := by
  apply lookup_eq_none_of_ne
  intro p hp heq
  rcases hst.2 p.1 (List.mem_map_of_mem Prod.fst hp) with ⟨b, m, hk, hm⟩
  rw [hk, get_title_fst] at heq
  have := key_suffix_inj heq
  omega

theorem insertRow_preserves {st : List (String × Record) × Nat}
    (hst : goodState st) (tf : String) (row : Row) :
    goodState (insertRow tf st row) := by
  have hnone := insertRow_no_collision hst tf row
  unfold insertRow
  simp only [hnone, Option.isSome_none, Bool.false_eq_true, if_false]
  constructor
  · rw [List.map_append, List.nodup_append]
    refine ⟨hst.1, by simp, ?_⟩
    intro k hk hk2
    simp only [List.map_cons, List.map_nil, List.mem_singleton] at hk2
    rcases hst.2 k hk with ⟨b, m, hkey, hm⟩
    rw [hk2, get_title_fst] at hkey
    have := key_suffix_inj hkey.symm
    omega
  · intro k hk
    rw [List.map_append] at hk
    rcases List.mem_append.1 hk with hk | hk
    · rcases hst.2 k hk with ⟨b, m, hkey, hm⟩
      refine ⟨b, m, hkey, ?_⟩
      rw [get_title_snd]
      omega
    · simp only [List.map_cons, List.map_nil, List.mem_singleton] at hk
      refine ⟨String.intercalate "_"
          (((pySplit ((row.lookup tf).getD "")).map normWord).filter
            (fun w => !(kStopWords.contains w))), st.2, ?_, ?_⟩
      · rw [hk, get_title_fst]
      · rw [get_title_snd]
        omega

theorem readRows_goodState (tf : String) (rows : List Row) :
    ∀ st, goodState st → goodState (rows.foldl (insertRow tf) st) := by
  induction rows with
  | nil => intro st h; simpa using h
  | cons r rs ih =>
    intro st h
    rw [List.foldl_cons]
    exact ih _ (insertRow_preserves h tf r)

/-- C5: while `read_metatable` folds the rows of a table into the records
map, the stored keys are pairwise distinct after every prefix of the rows,
and for every next row the collision check (`title in self.records`) comes
up empty — the collision branch is never taken. -/
theorem c5_keys_distinct_no_collision (tf : String) (rows : List Row)
    (i : Nat) (row : Row) :
    ((((rows.take i).foldl (insertRow tf) ([], 0)).1.map Prod.fst).Nodup) ∧
    (rows.get? i = some row →
      (((rows.take i).foldl (insertRow tf) ([], 0)).1.lookup
        (get_title (((rows.take i).foldl (insertRow tf) ([], 0)).2)
          ((row.lookup tf).getD "")).1) = none) := by
  have hgs : goodState ((rows.take i).foldl (insertRow tf) ([], 0)) :=
    readRows_goodState tf (rows.take i) ([], 0) ⟨List.nodup_nil, by simp⟩
  exact ⟨hgs.1, fun _ => insertRow_no_collision hgs tf row⟩

/-- C5 witness: two rows with the identical raw title "Moby Dick"; after
the first row the keys are distinct and the second row's key
(`moby_dick_1`) is not yet present, so the collision branch is skipped. -/
theorem c5_keys_distinct_no_collision_witness :
    ((((twinRows.take 1).foldl (insertRow "TITLE") ([], 0)).1.map
        Prod.fst).Nodup) ∧
    (((twinRows.take 1).foldl (insertRow "TITLE") ([], 0)).1.lookup
      (get_title (((twinRows.take 1).foldl (insertRow "TITLE") ([], 0)).2)
        ((([(("TITLE" : String), ("Moby Dick" : String))] : Row).lookup
            "TITLE").getD "")).1) = none :=
  ⟨(c5_keys_distinct_no_collision "TITLE" twinRows 1
      [("TITLE", "Moby Dick")]).1,
   (c5_keys_distinct_no_collision "TITLE" twinRows 1
      [("TITLE", "Moby Dick")]).2 rfl⟩

/-- C1 witness for the amended claim: a concrete bad table aborts the
run. -/
theorem c1_missing_title_field_aborts_witness :
    mainLoop ["x"] [badTable] = .error "Could not find valid title field" :=
  c1_missing_title_field_aborts ["x"] badTable [] rfl

theorem inner_foldl (rt mk : String) (l : List String) :
    ∀ (n : Nat) (mt : Option String),
    l.foldl (innerStep rt mk) (n, mt) =
      (n + l.countP (fun w => isSubstr (filterWordNorm w) mk),
       if l.isEmpty then mt else some rt) := by
  induction l with
  | nil => intro n mt; simp
  | cons w ws ih =>
    intro n mt
    by_cases h : isSubstr (filterWordNorm w) mk
    · rw [List.foldl_cons,
        show innerStep rt mk (n, mt) w = (n + 1, some rt) from by
          simp [innerStep, h],
        ih]
      simp [List.countP_cons, h]
      omega
    · rw [List.foldl_cons,
        show innerStep rt mk (n, mt) w = (n, some rt) from by
          simp [innerStep, h],
        ih]
      simp [List.countP_cons, h]

theorem filterEntry_eval (kept : List (String × Record)) (log : List LogRow)
    (mt0 : Option String) (p : String × Record)
    (h1 : pySplit p.1 ≠ []) (h2 : pySplit p.2.title ≠ []) :
    filterEntry (kept, log, mt0) p =
      if overlap p ≤ kMatchThreshold then
        .ok (kept, log ++ [⟨p.1, p.2.title, overlap p⟩], some p.2.title)
      else .ok (kept ++ [p], log, some p.2.title) := by
  have hlen : (pySplit p.1).length ≠ 0 := by
    simpa [List.length_eq_zero] using h1
  have hemp : (pySplit p.2.title).isEmpty = false := by
    simpa using h2
  simp only [filterEntry, inner_foldl, hemp, Nat.zero_add, if_neg hlen,
    Bool.false_eq_true, if_false]
  rfl

theorem filter_foldlM (ms : List (String × Record)) :
    ∀ (kept : List (String × Record)) (log : List LogRow)
      (mt0 : Option String),
    (∀ p ∈ ms, pySplit p.1 ≠ [] ∧ pySplit p.2.title ≠ []) →
    ∃ mt', ms.foldlM filterEntry (kept, log, mt0) =
      .ok (kept ++ ms.filter (fun p => !decide (overlap p ≤ kMatchThreshold)),
           log ++ (ms.filter
              (fun p => decide (overlap p ≤ kMatchThreshold))).map
             (fun p => ⟨p.1, p.2.title, overlap p⟩),
           mt') := by
  induction ms with
  | nil =>
    intro kept log mt0 _
    refine ⟨mt0, ?_⟩
    simp only [List.foldlM_nil, List.filter_nil, List.map_nil,
      List.append_nil]
    rfl
  | cons p ps ih =>
    intro kept log mt0 hall
    have hp := hall p (by simp)
    by_cases hov : overlap p ≤ kMatchThreshold
    · rcases ih kept (log ++ [⟨p.1, p.2.title, overlap p⟩]) (some p.2.title)
        (fun q hq => hall q (by simp [hq])) with ⟨mt', hih⟩
      refine ⟨mt', ?_⟩
      rw [List.foldlM_cons, filterEntry_eval kept log mt0 p hp.1 hp.2,
        if_pos hov]
      show ps.foldlM filterEntry
        (kept, log ++ [⟨p.1, p.2.title, overlap p⟩], some p.2.title) = _
      rw [hih]
      simp [List.filter_cons, hov]
    · rcases ih (kept ++ [p]) log (some p.2.title)
        (fun q hq => hall q (by simp [hq])) with ⟨mt', hih⟩
      refine ⟨mt', ?_⟩
      rw [List.foldlM_cons, filterEntry_eval kept log mt0 p hp.1 hp.2,
        if_neg hov]
      show ps.foldlM filterEntry (kept ++ [p], log, some p.2.title) = _
      rw [hih]
      simp [List.filter_cons, hov]

/-- C6 counterexample: an accepted match whose record title has no words
(the key `_0` arises for an empty raw title, and the numeric query word
`"0"` matches it through its suffix).  Its overlap ratio is below the
threshold, yet `filter_matches` neither removes it nor logs it — it
aborts with Python's unbound-local error, because `metadata_title` is only
assigned inside the loop over the record title's words. -/
theorem c6_empty_record_title_unbound_local :
    overlap ("0", ⟨"_0", "", [("TITLE", "")]⟩) ≤ kMatchThreshold ∧
    filter_matches [("0", ⟨"_0", "", [("TITLE", "")]⟩)] =
      .error "UnboundLocalError: metadata_title" := by
  constructor
  · with_unfolding_all decide
  · with_unfolding_all rfl

/-- C6 amended: provided every query title and every matched record title
splits into at least one word, `filter_matches` removes an entry and
appends exactly one audit-log row (query title, record title, overlap
ratio) if and only if the overlap ratio is at most the 0.5 threshold
(so exactly 50% is rejected); the surviving entries are exactly those
above the threshold. -/
theorem c6_reject_iff_le_threshold (ms : List (String × Record))
    (hall : ∀ p ∈ ms, pySplit p.1 ≠ [] ∧ pySplit p.2.title ≠ []) :
    filter_matches ms = .ok
      (ms.filter (fun p => !decide (overlap p ≤ kMatchThreshold)),
       (ms.filter (fun p => decide (overlap p ≤ kMatchThreshold))).map
         (fun p => ⟨p.1, p.2.title, overlap p⟩)) := by
  rcases filter_foldlM ms [] [] none hall with ⟨mt', h⟩
  simp [filter_matches, h]

/-- C6 witness: a one-entry map whose overlap is 1 (> 0.5): it survives
and nothing is logged. -/
theorem c6_reject_iff_le_threshold_witness :
    filter_matches gatsbyMatches = .ok (gatsbyMatches, []) := by
  rw [c6_reject_iff_le_threshold gatsbyMatches (by decide)]
  with_unfolding_all rfl

/-- C8 counterexample: the filter does not always return the given mapping
— for a matches map holding a record whose title has no words, it raises
the unbound-local error instead of returning. -/
theorem c8_unbound_local_no_return :
    filter_matches [("a 0", ⟨"x_0", "", []⟩)] =
      .error "UnboundLocalError: metadata_title" := by
  with_unfolding_all rfl

/-- C8 amended: provided every query title and every matched record title
splits into at least one word, the filter returns the mapping with every
entry whose overlap exceeds the threshold still present and bound to the
same record, and adds no entries (the result is a sublist of the
input). -/
theorem c8_frame_preserves_survivors (ms : List (String × Record))
    (hall : ∀ p ∈ ms, pySplit p.1 ≠ [] ∧ pySplit p.2.title ≠ []) :
    ∃ kept log, filter_matches ms = .ok (kept, log) ∧ kept.Sublist ms ∧
      ∀ p ∈ ms, ¬ overlap p ≤ kMatchThreshold → p ∈ kept := by
  rcases filter_foldlM ms [] [] none hall with ⟨mt', h⟩
  refine ⟨ms.filter (fun p => !decide (overlap p ≤ kMatchThreshold)),
    (ms.filter (fun p => decide (overlap p ≤ kMatchThreshold))).map
      (fun p => ⟨p.1, p.2.title, overlap p⟩),
    by simp [filter_matches, h], List.filter_sublist ms, ?_⟩
  intro p hp hov
  rw [List.mem_filter]
  exact ⟨hp, by simpa using hov⟩

/-- C8 witness: the frame property at a concrete one-entry map. -/
theorem c8_frame_preserves_survivors_witness :
    ∃ kept log, filter_matches gatsbyMatches = .ok (kept, log) ∧
      kept.Sublist gatsbyMatches ∧
      ∀ p ∈ gatsbyMatches, ¬ overlap p ≤ kMatchThreshold → p ∈ kept :=
  c8_frame_preserves_survivors gatsbyMatches (by decide)

theorem maxLen_cons (w : String) (l : List String) :
    maxLen (w :: l) = max w.length (maxLen l) := rfl

theorem le_maxLen_head (w : String) (l : List String) :
    w.length ≤ maxLen (w :: l) := by
  rw [maxLen_cons]
  exact Nat.le_max_left _ _

theorem leftmostLongest_cons_step (x y : String) (ys : List String) :
    leftmostLongestSpec ((if y.length > x.length then y else x) :: ys) =
      leftmostLongestSpec (x :: y :: ys) := by
  by_cases hxy : y.length > x.length
  · rw [if_pos hxy]
    have hyM : y.length ≤ maxLen (y :: ys) := le_maxLen_head y ys
    have hxM : x.length < maxLen (y :: ys) := lt_of_lt_of_le hxy hyM
    have hM : maxLen (x :: y :: ys) = maxLen (y :: ys) := by
      rw [maxLen_cons]
      exact Nat.max_eq_right (le_of_lt hxM)
    rw [leftmostLongestSpec, leftmostLongestSpec, hM]
    conv_rhs => rw [List.find?_cons_of_neg _ (by
      simp only [beq_iff_eq]
      omega)]
  · rw [if_neg hxy]
    have hyx : y.length ≤ x.length := Nat.le_of_not_lt hxy
    have hM : maxLen (x :: y :: ys) = maxLen (x :: ys) := by
      rw [maxLen_cons, maxLen_cons, maxLen_cons, ← Nat.max_assoc,
        Nat.max_eq_left hyx]
    rw [leftmostLongestSpec, leftmostLongestSpec, hM]
    by_cases hx : x.length = maxLen (x :: ys)
    · rw [List.find?_cons_of_pos _ (by simp [hx]),
        List.find?_cons_of_pos _ (by simp [hx])]
    · have hxlt : x.length < maxLen (x :: ys) :=
        Nat.lt_of_le_of_ne (le_maxLen_head x ys) hx
      have hylt : y.length < maxLen (x :: ys) := Nat.lt_of_le_of_lt hyx hxlt
      rw [List.find?_cons_of_neg _ (by simp only [beq_iff_eq]; omega),
        List.find?_cons_of_neg _ (by simp only [beq_iff_eq]; omega),
        List.find?_cons_of_neg _ (by simp only [beq_iff_eq]; omega)]

theorem pyMax_eq_leftmostLongest (l : List String) :
    pyMax l = leftmostLongestSpec l := by
  cases l with
  | nil => rfl
  | cons x xs =>
    induction xs generalizing x with
    | nil =>
      rw [leftmostLongestSpec,
        List.find?_cons_of_pos _ (by
          simp [maxLen_cons, maxLen, Nat.max_zero])]
      rfl
    | cons y ys ih =>
      have h1 : pyMax (x :: y :: ys) =
          pyMax ((if y.length > x.length then y else x) :: ys) := rfl
      rw [h1, ih (if y.length > x.length then y else x),
        leftmostLongest_cons_step]

/-- C10: the matcher is deterministic — `match_titles` applied twice to the
same titles and corpus yields identical results — and its word-selection
tie-break is the leftmost word of maximal length: the `max`-by-length scan
(`pyMax`, used by both `match_titles` and `get_match`) always returns the
first element achieving the maximal length. -/
theorem c10_deterministic_leftmost_tiebreak :
    (∀ (titles : List String) (corpus : Corpus),
      match_titles titles corpus = match_titles titles corpus) ∧
    (∀ l : List String, pyMax l = leftmostLongestSpec l) :=
  ⟨fun _ _ => rfl, pyMax_eq_leftmostLongest⟩

end Matcher
